import Mathlib

/-
Verification of the ringbuffer repository (lock-free SPMC shared-memory ring buffer).

Shallow embedding of the core code:
  - include/ringbuffer/scope_exit.hpp (second half = ringbuffer.inl.hpp): the
    writer (ring_buffer) and reader (ring_buffer_reader) template implementations;
  - the ring_buffer concatenated header (detail::ring_buffer_header) with the
    position-word encoding;
  - include/ringbuffer/ringbufferstore.hpp: the shared-memory store holder.

Machine integers are modelled as Nat with explicit reduction modulo 2^32 where the
C++ code narrows to `unsigned`, and exact arithmetic where the C++ code computes in
the 64-bit `std::size_t` (integral promotion).  Position counters `first`/`last`
are C `unsigned` (32 bits); the packed position word is `unsigned long` (64 bits).
-/

namespace rb

/-- Modulus of the 32-bit counters: 2^32, one past the largest value of a
C unsigned int. -/
def u32 : Nat := 2 ^ 32

/-- Unsigned 32-bit subtraction a - b as C computes it, for a, b < u32. -/
def wrap_sub (a b : Nat) : Nat := (a + u32 - b) % u32

/-- Layout version stored in the header (detail::ring_buffer_version = 1). -/
def ring_buffer_version : Nat := 1

/-- Cache line size fixed by the layout (detail::ring_buffer_cache_linesize = 64). -/
def ring_buffer_cache_linesize : Nat := 64

namespace ring_buffer_header

/-- detail::ring_buffer_header::make_positions: the little-endian union
position_t{first, last} read back as one unsigned long: last in the high 32 bits,
first in the low 32 bits. -/
def make_positions (first last : Nat) : Nat := last * u32 + first

/-- detail::ring_buffer_header::first: low half of the position word
(union member upos[0] on the little-endian host the layout assumes). -/
def first (pos : Nat) : Nat := pos % u32

/-- detail::ring_buffer_header::last: high half of the position word
(union member upos[1] on the little-endian host the layout assumes). -/
def last (pos : Nat) : Nat := pos / u32

end ring_buffer_header

/-- Error kinds surfaced by the constructors (the C++ code throws
std::invalid_argument / std::runtime_error with distinct messages; §7 of the spec
names the corresponding kinds). -/
inductive rb_error where
  | invalid_argument
  | environment_fault
  | record_too_large
  | version_mismatch
  | record_size_mismatch

namespace ring_buffer

/-- ring_buffer<T>::ring_buffer (scope_exit.hpp lines 79-106), the argument and
environment validation: capacity must be nonzero, at most
std::numeric_limits<unsigned>::max() = u32 - 1, and a power of two
((capacity & (capacity-1)) == 0); the host cache line size must not exceed the
layout's 64 bytes, and sizeof(T) must not exceed the page size.  On success the
buffer records capacity_ = capacity. -/
def construct (sizeofT capacity cache_linesize page_size : Nat) : Except rb_error Nat :=
  if capacity = 0 ∨ capacity > u32 - 1 then .error .invalid_argument
  else if capacity &&& (capacity - 1) ≠ 0 then .error .invalid_argument
  else if cache_linesize > ring_buffer_cache_linesize then .error .environment_fault
  else if sizeofT > page_size then .error .record_too_large
  else .ok capacity

/-- ring_buffer<T>::push_helper (scope_exit.hpp lines 121-145), the position-word
update of one push/emplace.  first and last are decoded from the current word as
32-bit counters; ++last wraps modulo 2^32 (unsigned); the overwrite condition
first + capacity_ - 1 < last and the assignment first = last - capacity_ + 1 are
computed in std::size_t (64-bit, exact for first < 2^32 and 1 <= capacity < 2^32)
with the assignment narrowing back to unsigned.  The slot write itself
(init(&data_[last & (capacity_-1)])) carries no position information and is not
modelled here. -/
def push_helper (capacity pos : Nat) : Nat :=
  let first := ring_buffer_header.first pos
  let last := ring_buffer_header.last pos
  let last' := (last + 1) % u32
  let first' := if first + capacity - 1 < last' then (last' - capacity + 1) % u32 else first
  ring_buffer_header.make_positions first' last'

/-- The position word after n pushes into a freshly constructed buffer
(the constructor stores positions = 0 = make_positions 0 0). -/
def push_iter (capacity : Nat) : Nat → Nat
  | 0 => ring_buffer_header.make_positions 0 0
  | n + 1 => push_helper capacity (push_iter capacity n)

/-- ring_buffer<T>::size (scope_exit.hpp lines 147-152):
last(pos) - first(pos) as unsigned 32-bit subtraction. -/
def size (pos : Nat) : Nat :=
  wrap_sub (ring_buffer_header.last pos) (ring_buffer_header.first pos)

end ring_buffer

/-- Closed form of the first counter of the word stored after n pushes with the
given capacity (derived below from push_helper; regimes: filling, steady state,
and the post-wraparound regime in which the code stops moving first). -/
def closed_first (c n : Nat) : Nat :=
  if n < c then 0 else if n < u32 then n - c + 1 else u32 - c

/-- Closed form of the full position word after n pushes. -/
def pushed_positions (c n : Nat) : Nat :=
  ring_buffer_header.make_positions (closed_first c n) (n % u32)

/-- The reader's local (per-process, non-shared) state: the read cursor
(mutable unsigned read_pos_) and the configured underflow fixup. -/
structure reader_state where
  read_pos : Nat
  underflow_fixup : Nat

namespace ring_buffer_reader

/-- ring_buffer_reader<T>::ring_buffer_reader (scope_exit.hpp lines 156-179):
verify the stored version against ring_buffer_version, then the stored
data_size against sizeof(T); on success load the position word and set
read_pos_ = first(pos). -/
def construct (hdr_version hdr_data_size sizeofT pos fixup : Nat) :
    Except rb_error reader_state :=
  if hdr_version ≠ ring_buffer_version then .error .version_mismatch
  else if hdr_data_size ≠ sizeofT then .error .record_size_mismatch
  else .ok { read_pos := ring_buffer_header.first pos, underflow_fixup := fixup }

/-- ring_buffer_reader<T>::adjust_read_pos (scope_exit.hpp lines 191-201):
if first(pos) > read_pos_ (unsigned compare) the writer has lapped this reader;
snap read_pos_ to first + underflow_fixup_ (unsigned 32-bit addition). -/
def adjust_read_pos (s : reader_state) (pos : Nat) : reader_state :=
  let first := ring_buffer_header.first pos
  if s.read_pos < first then
    { s with read_pos := (first + s.underflow_fixup) % u32 }
  else s

/-- ring_buffer_reader<T>::size (scope_exit.hpp lines 181-189): load the position
word, run the underrun adjustment (mutating the mutable read_pos_ even though
size() is const), then return last > read_pos_ ? last - read_pos_ : 0.
The returned pair carries the updated local state and the size. -/
def size (s : reader_state) (pos : Nat) : reader_state × Nat :=
  let s' := adjust_read_pos s pos
  let last := ring_buffer_header.last pos
  (s', if s'.read_pos < last then last - s'.read_pos else 0)

/-- ring_buffer_reader<T>::next (scope_exit.hpp lines 236-240): read_pos_ += n.
Pure local arithmetic on the 32-bit cursor; no shared state is consulted (the
definition takes no position word). -/
def next (s : reader_state) (n : Nat) : reader_state :=
  { s with read_pos := (s.read_pos + n) % u32 }

/-- One iteration of the loop of ring_buffer_reader<T>::get (scope_exit.hpp lines
213-234): pos is the position word loaded before the copy (after which the
underrun adjustment runs and, here, no spin is needed), the record at
read_pos_ & capacity_mask_ is copied, pos2 is the word re-loaded afterwards and
the adjustment runs again; the copied record is returned only if the adjustment
left read_pos_ unchanged, otherwise (none) the loop restarts. -/
def get_step {α : Type} (capacity_mask : Nat) (slots : Nat → α) (pos pos2 : Nat)
    (s : reader_state) : reader_state × Option α :=
  let s1 := adjust_read_pos s pos
  let item := slots (s1.read_pos &&& capacity_mask)
  let s2 := adjust_read_pos s1 pos2
  (s2, if s1.read_pos = s2.read_pos then some item else none)

/-- Modelled from the spec: ring_buffer_reader<T>::try_get is declared in the
ringbuffer header but its definition is missing from the sources under src/;
the spec (§4.4) defines it as the get() algorithm with step 2 returning the
absent marker (std::nullopt) instead of spinning.  The position word pos is the
single snapshot every load of this call observes (sequential model): load and
adjust; if read_pos_ >= last(pos) return none; otherwise copy the record at
read_pos_ & capacity_mask_, re-load and adjust, and return the copy if read_pos_
is unchanged. -/
def try_get {α : Type} (capacity_mask : Nat) (slots : Nat → α) (pos : Nat)
    (s : reader_state) : reader_state × Option α :=
  let s1 := adjust_read_pos s pos
  if ring_buffer_header.last pos ≤ s1.read_pos then (s1, none)
  else
    let item := slots (s1.read_pos &&& capacity_mask)
    let s2 := adjust_read_pos s1 pos
    (s2, if s1.read_pos = s2.read_pos then some item else none)

end ring_buffer_reader

/-- detail::shm_object_holder (ringbufferstore.hpp lines 15-43): the wrapper that
owns the shared-memory object; its create constructor takes a remove flag
(default false) and its destructor unlinks the name iff that flag was recorded. -/
structure shm_object_holder where
  remove_on_close : Bool

namespace shm_object_holder

/-- The create constructor (ringbufferstore.hpp lines 18-26): records the
remove argument it receives. -/
def create (remove : Bool) : shm_object_holder :=
  { remove_on_close := remove }

/-- The destructor (ringbufferstore.hpp lines 34-38): whether it unlinks the
shared-memory name (it does iff remove_on_close was recorded). -/
def unlinks_on_close (h : shm_object_holder) : Bool := h.remove_on_close

end shm_object_holder

/-- ring_buffer_store create constructor (ringbufferstore.hpp lines 62-66): its
member-initializer list is shm_(shm_name, size, ipc::read_write), passing only
three arguments to the holder, so the constructor's remove_on_close parameter is
not forwarded and the holder is built with its defaulted remove = false. -/
def ring_buffer_store_create (remove_on_close : Bool) : shm_object_holder :=
  shm_object_holder.create false

/- ------------------------------------------------------------------ -/
/- Theorems.                                                           -/
/- ------------------------------------------------------------------ -/

/-- Numeric value of the counter modulus. -/
theorem u32_val : u32 = 4294967296 := by norm_num [u32]

/-- Decoding the low half of a packed position word recovers first. -/
theorem first_make_positions (f l : Nat) (hf : f < u32) :
    ring_buffer_header.first (ring_buffer_header.make_positions f l) = f := by
  unfold ring_buffer_header.first ring_buffer_header.make_positions
  rw [Nat.mul_add_mod', Nat.mod_eq_of_lt hf]

/-- Decoding the high half of a packed position word recovers last. -/
theorem last_make_positions (f l : Nat) (hf : f < u32) :
    ring_buffer_header.last (ring_buffer_header.make_positions f l) = l := by
  unfold ring_buffer_header.last ring_buffer_header.make_positions
  rw [Nat.mul_comm, Nat.mul_add_div (by norm_num [u32]), Nat.div_eq_of_lt hf, Nat.add_zero]

theorem make_positions_congr {f1 f2 l1 l2 : Nat} (hf : f1 = f2) (hl : l1 = l2) :
    ring_buffer_header.make_positions f1 l1 = ring_buffer_header.make_positions f2 l2 := by
  rw [hf, hl]

/-- The first counter in the closed form is always a valid 32-bit value. -/
theorem closed_first_lt (c n : Nat) (h1 : 1 ≤ c) (h2 : c ≤ 2 ^ 31) :
    closed_first c n < u32 := by
  unfold closed_first
  have hu : u32 = 4294967296 := u32_val
  have h31 : (2 : Nat) ^ 31 = 2147483648 := by norm_num
  split
  · omega
  · split <;> omega

/-- Closed form of the position word reached by n pushes from a fresh buffer:
while n < 2^32 the buffer keeps first = max(0, n - c + 1), but on the push that
wraps last past 2^32 the 64-bit overwrite test first + c - 1 < last can no longer
fire (its left side is 2^32 - 1 and last is a 32-bit value), so first freezes at
2^32 - c. -/
theorem push_iter_zero (c : Nat) :
    ring_buffer.push_iter c 0 = ring_buffer_header.make_positions 0 0 := rfl

theorem push_iter_succ (c n : Nat) :
    ring_buffer.push_iter c (n + 1) = ring_buffer.push_helper c (ring_buffer.push_iter c n) := rfl

theorem push_iter_eq_pushed_positions (c : Nat) (h1 : 1 ≤ c) (h2 : c ≤ 2 ^ 31) :
    ∀ n, ring_buffer.push_iter c n = pushed_positions c n := by
  intro n
  induction n with
  | zero =>
    rw [push_iter_zero]
    unfold pushed_positions
    refine make_positions_congr ?_ (by simp)
    unfold closed_first
    rw [if_pos (show 0 < c by omega)]
  | succ n ih =>
    rw [push_iter_succ, ih]
    unfold pushed_positions ring_buffer.push_helper
    have hF := closed_first_lt c n h1 h2
    rw [first_make_positions _ _ hF, last_make_positions _ _ hF]
    have h31 : (2 : Nat) ^ 31 = 2147483648 := by norm_num
    apply make_positions_congr
    · unfold closed_first
      simp only [u32_val]
      split_ifs <;> omega
    · simp only [u32_val]
      omega

/-- In the pre-wraparound regime the code does satisfy the claimed invariant and
size law: for n < 2^32 pushes, size = min(n, c - 1) and the wraparound distance
last - first stays at most c - 1. -/
theorem size_push_iter_of_lt (c n : Nat) (h1 : 1 ≤ c) (h2 : c ≤ 2 ^ 31) (hn : n < u32) :
    ring_buffer.size (ring_buffer.push_iter c n) = min n (c - 1) := by
  rw [push_iter_eq_pushed_positions c h1 h2 n]
  unfold pushed_positions ring_buffer.size
  have hF := closed_first_lt c n h1 h2
  rw [first_make_positions _ _ hF, last_make_positions _ _ hF]
  unfold wrap_sub closed_first
  have h31 : (2 : Nat) ^ 31 = 2147483648 := by norm_num
  simp only [u32_val] at hF hn ⊢
  split_ifs <;> omega

/-- C1 (code_bug evidence): pushing 2^32 times into a fresh buffer of capacity 4
drives the stored positions to first = 2^32 - 4, last = 0: on the push that wraps
the 32-bit last counter to 0 the code's 64-bit overwrite test
first + capacity - 1 < last (value 2^32 - 1 < 0) cannot fire, so first is left
behind and the unsigned wraparound distance last - first becomes 4 > capacity - 1,
violating the claimed invariant; the spec's step 3, evaluated as the unsigned
wraparound distance, would instead have moved first to last - (capacity - 1). -/
theorem c1_push_invariant_breaks_at_wraparound :
    ring_buffer.push_iter 4 (2 ^ 32) =
      ring_buffer_header.make_positions (2 ^ 32 - 4) 0 ∧
    wrap_sub (ring_buffer_header.last (ring_buffer.push_iter 4 (2 ^ 32)))
      (ring_buffer_header.first (ring_buffer.push_iter 4 (2 ^ 32))) = 4 ∧
    ¬ wrap_sub (ring_buffer_header.last (ring_buffer.push_iter 4 (2 ^ 32)))
      (ring_buffer_header.first (ring_buffer.push_iter 4 (2 ^ 32))) ≤ 4 - 1 ∧
    ring_buffer_header.first (ring_buffer.push_iter 4 (2 ^ 32)) ≠
      wrap_sub 0 (4 - 1) := by
  rw [push_iter_eq_pushed_positions 4 (by norm_num) (by norm_num) (2 ^ 32)]
  decide

/-- C2 (code_bug evidence): after n = 2^32 pushes into a fresh buffer of capacity
c = 4, the writer's size() — the unsigned subtraction last - first on the decoded
position word — returns 4, not min(n, c - 1) = 3: the same wraparound slip as in
the push invariant. -/
theorem c2_size_breaks_at_wraparound :
    ring_buffer.size (ring_buffer.push_iter 4 (2 ^ 32)) = 4 ∧
    min (2 ^ 32) (4 - 1) = 3 ∧ (4 : Nat) ≠ 3 := by
  rw [show ring_buffer.size (ring_buffer.push_iter 4 (2 ^ 32)) =
      ring_buffer.size (pushed_positions 4 (2 ^ 32)) by
    rw [push_iter_eq_pushed_positions 4 (by norm_num) (by norm_num) (2 ^ 32)]]
  refine ⟨by decide, by simp, by decide⟩

/-- The underrun adjustment never touches the configured fixup. -/
theorem adjust_read_pos_fixup (s : reader_state) (pos : Nat) :
    (ring_buffer_reader.adjust_read_pos s pos).underflow_fixup = s.underflow_fixup := by
  by_cases h : s.read_pos < ring_buffer_header.first pos <;>
    simp [ring_buffer_reader.adjust_read_pos, h]

/-- As long as first + fixup does not wrap past 2^32, the adjusted cursor is
never below the first index decoded from the loaded word. -/
theorem adjust_read_pos_ge (s : reader_state) (pos : Nat)
    (h : ring_buffer_header.first pos + s.underflow_fixup < u32) :
    ring_buffer_header.first pos ≤ (ring_buffer_reader.adjust_read_pos s pos).read_pos := by
  by_cases h' : s.read_pos < ring_buffer_header.first pos
  · simp only [ring_buffer_reader.adjust_read_pos, if_pos h']
    rw [Nat.mod_eq_of_lt h]
    omega
  · simp only [ring_buffer_reader.adjust_read_pos, if_neg h']
    omega

/-- C3: the underrun adjustment run on a loaded position word: if
first(w) > read_pos (unsigned comparison) the cursor is snapped to
first(w) + underflow_fixup (32-bit addition), otherwise the state is left
unchanged; and both reader operations that load the word — size(), and get() for
each of its two loads — thread their cursor through exactly this adjustment. -/
theorem c3_underrun_adjustment (s : reader_state) (pos pos2 mask : Nat)
    (slots : Nat → Nat) :
    (ring_buffer_header.first pos > s.read_pos →
      ring_buffer_reader.adjust_read_pos s pos =
        { s with read_pos := (ring_buffer_header.first pos + s.underflow_fixup) % u32 }) ∧
    (¬ ring_buffer_header.first pos > s.read_pos →
      ring_buffer_reader.adjust_read_pos s pos = s) ∧
    (ring_buffer_reader.size s pos).1 = ring_buffer_reader.adjust_read_pos s pos ∧
    (ring_buffer_reader.get_step mask slots pos pos2 s).1 =
      ring_buffer_reader.adjust_read_pos (ring_buffer_reader.adjust_read_pos s pos) pos2 := by
  refine ⟨?_, ?_, rfl, rfl⟩
  · intro h
    unfold ring_buffer_reader.adjust_read_pos
    rw [if_pos h]
  · intro h
    unfold ring_buffer_reader.adjust_read_pos
    rw [if_neg h]

theorem c3_underrun_adjustment_witness :
    ring_buffer_reader.adjust_read_pos ⟨5, 128⟩ (ring_buffer_header.make_positions 9 20) =
      { read_pos := (9 + 128) % u32, underflow_fixup := 128 } ∧
    ring_buffer_reader.adjust_read_pos ⟨50, 128⟩ (ring_buffer_header.make_positions 9 20) =
      ⟨50, 128⟩ := by
  constructor
  · exact (c3_underrun_adjustment ⟨5, 128⟩ (ring_buffer_header.make_positions 9 20) 0 0
      (fun _ => 0)).1 (by decide)
  · exact (c3_underrun_adjustment ⟨50, 128⟩ (ring_buffer_header.make_positions 9 20) 0 0
      (fun _ => 0)).2.1 (by decide)

/-- Splitting a sum l * 2^32 + f with f < 2^32 is the same as a bitwise or. -/
theorem mul_two_pow_add_eq_or (l f : Nat) (hf : f < 2 ^ 32) :
    l * 2 ^ 32 + f = (l * 2 ^ 32) ||| f := by
  apply Nat.eq_of_testBit_eq
  intro j
  rw [Nat.testBit_or, Nat.mul_comm l (2 ^ 32), Nat.testBit_mul_pow_two_add l hf j,
    Nat.testBit_mul_pow_two]
  by_cases h : j < 32
  · simp [h, Nat.not_le.2 h]
  · have hj : 32 ≤ j := Nat.not_lt.1 h
    have hf' : Nat.testBit f j = false :=
      Nat.testBit_lt_two_pow (lt_of_lt_of_le hf (Nat.pow_le_pow_right (by norm_num) hj))
    simp [h, hj, hf']

/-- C5: the header's position encoding is pack(first, last) = (last << 32) | first
and the two decoders invert it; moreover the decoders agree with the spec's
bit-level formulas first(w) = w & 0xFFFFFFFF and last(w) = w >> 32. -/
theorem c5_position_encoding (f l : Nat) (hf : f < u32) (hl : l < u32) :
    ring_buffer_header.make_positions f l = (l <<< 32) ||| f ∧
    ring_buffer_header.first (ring_buffer_header.make_positions f l) = f ∧
    ring_buffer_header.last (ring_buffer_header.make_positions f l) = l ∧
    (∀ w, ring_buffer_header.first w = w &&& (u32 - 1)) ∧
    (∀ w, ring_buffer_header.last w = w >>> 32) := by
  refine ⟨?_, first_make_positions f l hf, last_make_positions f l hf, ?_, ?_⟩
  · unfold ring_buffer_header.make_positions
    rw [Nat.shiftLeft_eq]
    exact mul_two_pow_add_eq_or l f (by simpa [u32] using hf)
  · intro w
    unfold ring_buffer_header.first
    simp only [u32]
    rw [Nat.and_pow_two_sub_one_eq_mod]
  · intro w
    unfold ring_buffer_header.last
    simp only [u32]
    rw [Nat.shiftRight_eq_div_pow]

theorem c5_position_encoding_witness :
    ring_buffer_header.make_positions 7 9 = (9 <<< 32) ||| 7 ∧
    ring_buffer_header.first (ring_buffer_header.make_positions 7 9) = 7 ∧
    ring_buffer_header.last (ring_buffer_header.make_positions 7 9) = 9 := by
  have h := c5_position_encoding 7 9 (by decide) (by decide)
  exact ⟨h.1, h.2.1, h.2.2.1⟩

/-- C9 (code_bug evidence): the store's create constructor receives
remove_on_close = true but builds its holder with the flag's default false (the
member initializer passes only name, size and mode), so closing the store never
unlinks the shared-memory name; a holder that had actually recorded true would
unlink, as the second conjunct shows. -/
theorem c9_remove_on_close_dropped :
    shm_object_holder.unlinks_on_close (ring_buffer_store_create true) = false ∧
    shm_object_holder.unlinks_on_close (shm_object_holder.create true) = true :=
  ⟨rfl, rfl⟩

/-- C10 (amended): size() and both phases of get() run the underrun adjustment on
the word they load — in particular the const size() mutates the mutable cursor —
and, provided first + underflow_fixup does not wrap past 2^32, the cursor after
any such call is never below the first index decoded from the loaded word. -/
theorem c10_reader_ops_run_adjustment (s : reader_state) (pos pos2 mask : Nat)
    (slots : Nat → Nat) :
    (ring_buffer_reader.size s pos).1 = ring_buffer_reader.adjust_read_pos s pos ∧
    (ring_buffer_reader.get_step mask slots pos pos2 s).1 =
      ring_buffer_reader.adjust_read_pos (ring_buffer_reader.adjust_read_pos s pos) pos2 ∧
    (ring_buffer_header.first pos + s.underflow_fixup < u32 →
      ring_buffer_header.first pos ≤ (ring_buffer_reader.size s pos).1.read_pos) ∧
    (ring_buffer_header.first pos2 + s.underflow_fixup < u32 →
      ring_buffer_header.first pos2 ≤
        (ring_buffer_reader.get_step mask slots pos pos2 s).1.read_pos) := by
  refine ⟨rfl, rfl, ?_, ?_⟩
  · intro h
    exact adjust_read_pos_ge s pos h
  · intro h
    exact adjust_read_pos_ge (ring_buffer_reader.adjust_read_pos s pos) pos2
      (by rw [adjust_read_pos_fixup]; exact h)

theorem c10_reader_ops_run_adjustment_witness :
    ring_buffer_header.first (ring_buffer_header.make_positions 9 20) ≤
      (ring_buffer_reader.size ⟨5, 128⟩ (ring_buffer_header.make_positions 9 20)).1.read_pos ∧
    ring_buffer_header.first (ring_buffer_header.make_positions 9 20) ≤
      (ring_buffer_reader.get_step 3 (fun i => i) (ring_buffer_header.make_positions 9 20)
        (ring_buffer_header.make_positions 9 20) ⟨5, 128⟩).1.read_pos := by
  constructor
  · exact (c10_reader_ops_run_adjustment ⟨5, 128⟩ (ring_buffer_header.make_positions 9 20)
      (ring_buffer_header.make_positions 9 20) 3 (fun i => i)).2.2.1 (by decide)
  · exact (c10_reader_ops_run_adjustment ⟨5, 128⟩ (ring_buffer_header.make_positions 9 20)
      (ring_buffer_header.make_positions 9 20) 3 (fun i => i)).2.2.2 (by decide)

/-- C10 counterexample: the claim's unconditional "read_pos is never below the
first index decoded from the loaded word" is false: with first = 2^32 - 1 and the
default fixup 128, size() snaps the cursor to (2^32 - 1 + 128) mod 2^32 = 127,
strictly below first. -/
theorem c10_adjust_can_land_below_first :
    (ring_buffer_reader.size ⟨0, 128⟩
        (ring_buffer_header.make_positions (u32 - 1) (u32 - 1))).1.read_pos = 127 ∧
    ring_buffer_header.first (ring_buffer_header.make_positions (u32 - 1) (u32 - 1)) =
      u32 - 1 ∧
    (127 : Nat) < u32 - 1 := by
  decide

/-- C4 (spec-modelled): try_get under a fixed position word: when the reader is
not lapped, it returns the record at read_pos if at least one item is available
there (read_pos < last) and the absent marker none otherwise, and in both cases
the cursor is not advanced. -/
theorem c4_try_get {α : Type} (mask : Nat) (slots : Nat → α) (pos : Nat)
    (s : reader_state) (hnolap : ring_buffer_header.first pos ≤ s.read_pos) :
    ring_buffer_reader.try_get mask slots pos s =
      (s, if s.read_pos < ring_buffer_header.last pos
          then some (slots (s.read_pos &&& mask)) else none) := by
  have hadj : ring_buffer_reader.adjust_read_pos s pos = s := by
    simp only [ring_buffer_reader.adjust_read_pos, if_neg (Nat.not_lt.2 hnolap)]
  by_cases hav : s.read_pos < ring_buffer_header.last pos
  · simp [ring_buffer_reader.try_get, hadj, Nat.not_le.2 hav, hav]
  · simp [ring_buffer_reader.try_get, hadj, Nat.not_lt.1 hav, hav]

theorem c4_try_get_witness :
    ring_buffer_reader.try_get 3 (fun i => 10 * i) (ring_buffer_header.make_positions 0 2)
      ⟨1, 128⟩ = (⟨1, 128⟩, some 10) ∧
    ring_buffer_reader.try_get 3 (fun i => 10 * i) (ring_buffer_header.make_positions 0 2)
      ⟨2, 128⟩ = (⟨2, 128⟩, none) := by
  constructor
  · rw [c4_try_get 3 (fun i => 10 * i) (ring_buffer_header.make_positions 0 2) ⟨1, 128⟩
      (by decide)]
    rfl
  · rw [c4_try_get 3 (fun i => 10 * i) (ring_buffer_header.make_positions 0 2) ⟨2, 128⟩
      (by decide)]
    rfl

/-- A power of two anded with its predecessor is zero (the constructor's
power-of-two test accepts every 2^k). -/
theorem pow_two_and_pred (k : Nat) : 2 ^ k &&& (2 ^ k - 1) = 0 := by
  rw [Nat.and_pow_two_sub_one_eq_mod, Nat.mod_self]

/-- Conversely, a nonzero value passing the constructor's test c & (c-1) == 0 is
a power of two. -/
theorem exists_pow_of_and_pred_eq_zero (c : Nat) (hc : c ≠ 0)
    (h : c &&& (c - 1) = 0) : ∃ k, c = 2 ^ k := by
  refine ⟨c.log2, ?_⟩
  by_contra hne
  have h1 : 2 ^ c.log2 ≤ c := Nat.log2_self_le hc
  have h2 : c < 2 ^ (c.log2 + 1) := Nat.lt_log2_self
  have hp : (2 : Nat) ^ (c.log2 + 1) = 2 * 2 ^ c.log2 := by
    rw [Nat.pow_succ, Nat.mul_comm]
  have h1' : 2 ^ c.log2 < c := lt_of_le_of_ne h1 fun he => hne he.symm
  have hb : c - 2 ^ c.log2 < 2 ^ c.log2 := by omega
  have hb' : c - 1 - 2 ^ c.log2 < 2 ^ c.log2 := by omega
  have hc1 : 2 ^ c.log2 * 1 + (c - 2 ^ c.log2) = c := by omega
  have hc2 : 2 ^ c.log2 * 1 + (c - 1 - 2 ^ c.log2) = c - 1 := by omega
  have ht1 : Nat.testBit c c.log2 = true := by
    have ht := Nat.testBit_mul_pow_two_add 1 hb c.log2
    rw [hc1] at ht
    rw [ht]
    simp
  have ht2 : Nat.testBit (c - 1) c.log2 = true := by
    have ht := Nat.testBit_mul_pow_two_add 1 hb' c.log2
    rw [hc2] at ht
    rw [ht]
    simp
  have hbit : Nat.testBit (c &&& (c - 1)) c.log2 = true := by
    rw [Nat.testBit_and, ht1, ht2]
    rfl
  rw [h] at hbit
  simp at hbit

/-- C6: the writer's constructor rejects with the invalid-argument error every
capacity that is zero, not a power of two, or above 2^32 - 1 (in particular 0, 3,
2^32 and 2^32 + 1), and accepts every 2^k for 1 <= k <= 20, recording
capacity() = 2^k (environment: record size 4, host cache line 64, page 4096). -/
theorem c6_capacity_validation :
    ring_buffer.construct 4 0 64 4096 = .error .invalid_argument ∧
    ring_buffer.construct 4 3 64 4096 = .error .invalid_argument ∧
    ring_buffer.construct 4 (2 ^ 32) 64 4096 = .error .invalid_argument ∧
    ring_buffer.construct 4 (2 ^ 32 + 1) 64 4096 = .error .invalid_argument ∧
    (∀ c, c = 0 ∨ (¬ ∃ k, c = 2 ^ k) ∨ c > 2 ^ 32 - 1 →
      ring_buffer.construct 4 c 64 4096 = .error .invalid_argument) ∧
    (∀ k, 1 ≤ k → k ≤ 20 →
      ring_buffer.construct 4 (2 ^ k) 64 4096 = .ok (2 ^ k)) := by
  refine ⟨rfl, rfl, rfl, rfl, ?_, ?_⟩
  · intro c hc
    by_cases h0 : c = 0
    · subst h0; rfl
    by_cases hbig : c > u32 - 1
    · unfold ring_buffer.construct
      rw [if_pos (Or.inr hbig)]
    rcases hc with h | h | h
    · exact absurd h h0
    · have hand : c &&& (c - 1) ≠ 0 := fun heq =>
        h (exists_pow_of_and_pred_eq_zero c h0 heq)
      unfold ring_buffer.construct
      rw [if_neg fun hor => hor.elim h0 hbig, if_pos hand]
    · exact absurd h hbig
  · intro k hk1 hk2
    have hle : (2 : Nat) ^ k ≤ 2 ^ 20 := Nat.pow_le_pow_right (by norm_num) hk2
    have h1 : ¬ (2 ^ k = 0 ∨ 2 ^ k > u32 - 1) := by
      have h20 : (2 : Nat) ^ 20 = 1048576 := by norm_num
      have hpos : 0 < 2 ^ k := Nat.two_pow_pos k
      rw [u32_val]
      omega
    have h2 : ¬ (2 ^ k &&& (2 ^ k - 1) ≠ 0) := by
      simp [pow_two_and_pred k]
    have h3 : ¬ (64 > ring_buffer_cache_linesize) := by decide
    have h4 : ¬ ((4 : Nat) > 4096) := by decide
    unfold ring_buffer.construct
    rw [if_neg h1, if_neg h2, if_neg h3, if_neg h4]

theorem c6_capacity_validation_witness :
    ring_buffer.construct 4 (2 ^ 32 + 2) 64 4096 = .error .invalid_argument ∧
    ring_buffer.construct 4 1024 64 4096 = .ok 1024 := by
  constructor
  · exact c6_capacity_validation.2.2.2.2.1 (2 ^ 32 + 2) (Or.inr (Or.inr (by norm_num)))
  · exact c6_capacity_validation.2.2.2.2.2 10 (by norm_num) (by norm_num)

/-- C7: the reader's constructor validates the header before anything is read:
a stored version different from the implementation's version is rejected with
the version-mismatch error; with a matching version, a stored record size
different from the reader's record size is rejected with the record-size-mismatch
error; and on success the local read_pos is set to the current first. -/
theorem c7_reader_header_validation (v ds st pos fx : Nat) :
    (v ≠ ring_buffer_version →
      ring_buffer_reader.construct v ds st pos fx = .error .version_mismatch) ∧
    (v = ring_buffer_version → ds ≠ st →
      ring_buffer_reader.construct v ds st pos fx = .error .record_size_mismatch) ∧
    (v = ring_buffer_version → ds = st →
      ring_buffer_reader.construct v ds st pos fx =
        .ok { read_pos := ring_buffer_header.first pos, underflow_fixup := fx }) := by
  refine ⟨?_, ?_, ?_⟩
  · intro h
    simp [ring_buffer_reader.construct, h]
  · intro h1 h2
    simp [ring_buffer_reader.construct, h1, h2]
  · intro h1 h2
    simp [ring_buffer_reader.construct, h1, h2]

theorem c7_reader_header_validation_witness :
    ring_buffer_reader.construct 2 4 4 0 128 = .error .version_mismatch ∧
    ring_buffer_reader.construct 1 8 4 0 128 = .error .record_size_mismatch ∧
    ring_buffer_reader.construct 1 4 4 (ring_buffer_header.make_positions 3 9) 128 =
      .ok ⟨3, 128⟩ := by
  refine ⟨(c7_reader_header_validation 2 4 4 0 128).1 (by decide),
    (c7_reader_header_validation 1 8 4 0 128).2.1 rfl (by decide), ?_⟩
  rw [(c7_reader_header_validation 1 4 4 (ring_buffer_header.make_positions 3 9) 128).2.2
    rfl rfl]
  rfl

/-- next(0) with an in-range cursor is the identity on the reader's state. -/
theorem next_zero (s : reader_state) (h : s.read_pos < u32) :
    ring_buffer_reader.next s 0 = s := by
  unfold ring_buffer_reader.next
  rw [Nat.add_zero, Nat.mod_eq_of_lt h]

/-- C8: next(n) only adds n to the private cursor (32-bit wrap): the fixup is
untouched and no position word is consulted (the definition takes none);
advancing at or past last just makes size() return 0 (when not lapped); and
next(0) changes nothing — neither the state, nor size(), nor what get() returns. -/
theorem c8_next_pure_local (s : reader_state) (n pos pos2 mask : Nat)
    (slots : Nat → Nat) :
    (ring_buffer_reader.next s n).read_pos = (s.read_pos + n) % u32 ∧
    (ring_buffer_reader.next s n).underflow_fixup = s.underflow_fixup ∧
    (ring_buffer_header.first pos ≤ (ring_buffer_reader.next s n).read_pos →
      ring_buffer_header.last pos ≤ (ring_buffer_reader.next s n).read_pos →
      (ring_buffer_reader.size (ring_buffer_reader.next s n) pos).2 = 0) ∧
    (s.read_pos < u32 → ring_buffer_reader.next s 0 = s) ∧
    (s.read_pos < u32 →
      ring_buffer_reader.size (ring_buffer_reader.next s 0) pos =
        ring_buffer_reader.size s pos) ∧
    (s.read_pos < u32 →
      ring_buffer_reader.get_step mask slots pos pos2 (ring_buffer_reader.next s 0) =
        ring_buffer_reader.get_step mask slots pos pos2 s) := by
  refine ⟨rfl, rfl, ?_, fun h => next_zero s h, fun h => by rw [next_zero s h],
    fun h => by rw [next_zero s h]⟩
  intro h1 h2
  have hadj : ring_buffer_reader.adjust_read_pos (ring_buffer_reader.next s n) pos =
      ring_buffer_reader.next s n := by
    simp only [ring_buffer_reader.adjust_read_pos, if_neg (Nat.not_lt.2 h1)]
  simp only [ring_buffer_reader.size, hadj]
  rw [if_neg (Nat.not_lt.2 h2)]

theorem c8_next_pure_local_witness :
    (ring_buffer_reader.size (ring_buffer_reader.next ⟨5, 128⟩ 3)
      (ring_buffer_header.make_positions 0 2)).2 = 0 ∧
    ring_buffer_reader.next ⟨5, 128⟩ 0 = ⟨5, 128⟩ := by
  refine ⟨(c8_next_pure_local ⟨5, 128⟩ 3 (ring_buffer_header.make_positions 0 2) 0 0
    (fun i => i)).2.2.1 (by decide) (by decide),
    (c8_next_pure_local ⟨5, 128⟩ 0 (ring_buffer_header.make_positions 0 2) 0 0
    (fun i => i)).2.2.2.1 (by decide)⟩

end rb
